import Mathlib

/-!
Verification development for the phase-tracking and checkpoint-recovery
subsystem of the checklist processor.

The repository ships the subsystem's tests (`processor/tests/test_checkpoint.py`)
and its callers (`processor/stages/update_status.py`), but the module
`processor/checkpoint.py` itself is not among the provided sources; the
definitions below are therefore modelled from the specification (spec.md,
sections 3, 4 and 6) and from the behaviour pinned down by the tests.
Filesystem state is embedded as explicit data: a working directory is the
listing of its recognized artifact locations, and the sidecar checkpoint file
is a three-way state (absent, present-but-corrupt, or a parsed record).
-/

namespace CheckpointSpec

/-- Modelled from the spec: the fixed, linearly ordered enumeration of phases
`INIT < RESEARCH < TESTS < EXECUTION < REPORT < COMPLETE`
(`processor/checkpoint.py` is missing from the sources; spec.md section 3). -/
inductive Phase where
  | init
  | research
  | tests
  | execution
  | report
  | complete
deriving DecidableEq, Repr

/-- Modelled from the spec: the index of a phase in the fixed order, used as
the total order on phases. -/
def Phase.toNat : Phase → Nat
  | .init => 0
  | .research => 1
  | .tests => 2
  | .execution => 3
  | .report => 4
  | .complete => 5

/-- Modelled from the spec: the canonical lowercase name string of a phase,
used in the serialized form. -/
def Phase.name : Phase → String
  | .init => "init"
  | .research => "research"
  | .tests => "tests"
  | .execution => "execution"
  | .report => "report"
  | .complete => "complete"

/-- Modelled from the spec: parse a canonical lowercase phase name; `none`
for an unrecognized name (Python's `Phase(value)` raising `ValueError`). -/
def Phase.ofName (s : String) : Option Phase :=
  if s = "init" then some .init
  else if s = "research" then some .research
  else if s = "tests" then some .tests
  else if s = "execution" then some .execution
  else if s = "report" then some .report
  else if s = "complete" then some .complete
  else none

/-- Modelled from the spec: `next_phase(p)` returns the phase immediately
after `p` in the fixed order, or `none` when `p` is terminal (COMPLETE). -/
def Phase.next_phase : Phase → Option Phase
  | .init => some .research
  | .research => some .tests
  | .tests => some .execution
  | .execution => some .report
  | .report => some .complete
  | .complete => none

/-- Modelled from the spec: the more advanced of two phases in the fixed
total order (used by `load` reconciliation, which never regresses). -/
def Phase.later (p q : Phase) : Phase :=
  if p.toNat < q.toNat then q else p

/-- Modelled from the spec: a per-item working directory as the evidence the
derivation looks at — the content of the fixed-name final-report file when it
exists, and the file-name listings of the `research/`, `tests/` and `results/`
subdirectories (a missing subdirectory is the empty listing; a non-existent
working directory is the record with no report and three empty listings). -/
structure WorkingDir where
  finalReport : Option String
  research : List String
  tests : List String
  results : List String
deriving DecidableEq, Repr

/-- Whether the first character list starts the second. -/
def startsWithChars : List Char → List Char → Bool
  | [], _ => true
  | _ :: _, [] => false
  | a :: p, b :: s => a == b && startsWithChars p s

/-- Whether the first character list ends the second. -/
def endsWithChars (p s : List Char) : Bool :=
  startsWithChars p.reverse s.reverse

/-- Whether the first character list occurs contiguously inside the second. -/
def containsChars (p : List Char) : List Char → Bool
  | [] => p.isEmpty
  | c :: s => startsWithChars p (c :: s) || containsChars p s

/-- Modelled from the spec: a research artifact is a markdown note file
(`research/*.md`). -/
def isMarkdown (f : String) : Bool :=
  endsWithChars ".md".data f.data

/-- Modelled from the spec: recognized test-file naming conventions — prefixed
with `test_`, or `_test` before the extension, or a `.test.` infix — across
the source extensions `.py`, `.js`, `.rs`. -/
def isTestFile (f : String) : Bool :=
  [".py", ".js", ".rs"].any fun ext =>
    endsWithChars ext.data f.data
      && (startsWithChars "test_".data f.data
          || endsWithChars ("_test" ++ ext).data f.data
          || containsChars ".test.".data f.data)

/-- Modelled from the spec: a JSON result file in `results/` — a name ending
in the `results.json` convention (optionally prefixed, e.g.
`output_results.json`). -/
def isResultsFile (f : String) : Bool :=
  endsWithChars "results.json".data f.data

/-- Modelled from the spec: the COMPLETE evidence check — the final-report
file exists and its content length is at least 100 bytes. -/
def reportEvidence : Option String → Bool
  | some c => 100 ≤ c.length
  | none => false

/-- Modelled from the spec: `Phase.from_artifacts(dir)` — the most advanced
phase for which durable evidence exists, checked in strict priority order
COMPLETE, REPORT, EXECUTION, TESTS, INIT (first match wins). -/
def Phase.from_artifacts (d : WorkingDir) : Phase :=
  if reportEvidence d.finalReport then .complete
  else if d.results.any isResultsFile then .report
  else if d.tests.any isTestFile then .execution
  else if d.research.any isMarkdown then .tests
  else .init

/-- Stated from the spec's words, for comparison with `Phase.from_artifacts`:
the single-phase evidence rule, evaluated independently of other phases'
evidence (INIT is the default and always matches; RESEARCH has no artifact
evidence of its own in the derivation list). -/
def phaseEvidence (d : WorkingDir) : Phase → Bool
  | .complete => reportEvidence d.finalReport
  | .report => d.results.any isResultsFile
  | .execution => d.tests.any isTestFile
  | .tests => d.research.any isMarkdown
  | .research => false
  | .init => true

/-- Stated from the spec's words: the strict priority order in which
`from_artifacts` checks evidence — COMPLETE, REPORT, EXECUTION, TESTS, INIT. -/
def priorityOrder : List Phase :=
  [.complete, .report, .execution, .tests, .init]

/-- Modelled from the spec: the checkpoint record for one work item
(spec.md section 3; timestamps are caller-supplied strings, `metadata`
values are kept as strings). -/
structure Checkpoint where
  item_id : String
  phase : Phase
  attempt : Nat
  started_at : String
  updated_at : String
  elapsed_ms : Nat
  artifacts : List (String × List String)
  errors : List String
  metadata : List (String × String)
deriving DecidableEq, Repr

/-- Modelled from the spec: construction with documented defaults — attempt 1,
empty collections, the current timestamp for both timestamp fields, zero
elapsed time. -/
def Checkpoint.fresh (item_id now : String) : Checkpoint :=
  { item_id := item_id
    phase := .init
    attempt := 1
    started_at := now
    updated_at := now
    elapsed_ms := 0
    artifacts := []
    errors := []
    metadata := [] }

/-- Look up the artifact list recorded for a phase name in an insertion-ordered
association list (the empty list when the key is absent). -/
def lookupArtifacts (m : List (String × List String)) (k : String) : List String :=
  match m with
  | [] => []
  | (k', vs) :: rest => if k' = k then vs else lookupArtifacts rest k

/-- The phase-name keys present in the artifact inventory, in insertion order. -/
def keysOf (m : List (String × List String)) : List String :=
  m.map Prod.fst

/-- Modelled from the spec: the in-place update behind `add_artifact` — append
`v` to the list at key `k`, creating the entry if absent, and leave the map
unchanged when `v` is already present for `k`. -/
def updateAssoc (m : List (String × List String)) (k v : String) :
    List (String × List String) :=
  match m with
  | [] => [(k, [v])]
  | (k', vs) :: rest =>
    if k' = k then
      (if v ∈ vs then (k', vs) else (k', vs ++ [v])) :: rest
    else (k', vs) :: updateAssoc rest k v

/-- The artifact list a checkpoint records for a phase name. -/
def Checkpoint.artifactsFor (cp : Checkpoint) (k : String) : List String :=
  lookupArtifacts cp.artifacts k

/-- Modelled from the spec: `add_artifact(phase_name, path)` — appends `path`
to the artifact list for `phase_name`, creating the list if absent; a no-op
when `path` is already present for that phase. -/
def Checkpoint.add_artifact (cp : Checkpoint) (ph path : String) : Checkpoint :=
  { cp with artifacts := updateAssoc cp.artifacts ph path }

/-- Modelled from the spec: `advance_phase()` — moves `phase` to
`next_phase(phase)` if defined, refreshing `updated_at` (the caller-supplied
current timestamp `now`) and reporting `true`; reports `false` and leaves the
record unchanged, timestamp included, when already terminal. -/
def Checkpoint.advance_phase (cp : Checkpoint) (now : String) : Bool × Checkpoint :=
  match Phase.next_phase cp.phase with
  | some p => (true, { cp with phase := p, updated_at := now })
  | none => (false, cp)

/-- Modelled from the spec: `add_error(message)` — appends a
timestamp-prefixed string built from the current time and the message. -/
def Checkpoint.add_error (cp : Checkpoint) (msg now : String) : Checkpoint :=
  { cp with errors := cp.errors ++ ["[" ++ now ++ "] " ++ msg] }

/-- Modelled from the spec: the structural (dictionary) representation of a
checkpoint record, with `phase` represented by its name string. -/
structure CheckpointDict where
  item_id : String
  phase : String
  attempt : Nat
  started_at : String
  updated_at : String
  elapsed_ms : Nat
  artifacts : List (String × List String)
  errors : List String
  metadata : List (String × String)
deriving DecidableEq, Repr

/-- Modelled from the spec: `to_dict` — serialize, with `phase` as its
canonical lowercase name string. -/
def Checkpoint.to_dict (cp : Checkpoint) : CheckpointDict :=
  { item_id := cp.item_id
    phase := cp.phase.name
    attempt := cp.attempt
    started_at := cp.started_at
    updated_at := cp.updated_at
    elapsed_ms := cp.elapsed_ms
    artifacts := cp.artifacts
    errors := cp.errors
    metadata := cp.metadata }

/-- Modelled from the spec: `from_dict` — deserialize; an unrecognized phase
name is a hard `ValueError`-class failure, never coerced to a default phase. -/
def Checkpoint.from_dict (d : CheckpointDict) : Except String Checkpoint :=
  match Phase.ofName d.phase with
  | some p =>
    .ok { item_id := d.item_id
          phase := p
          attempt := d.attempt
          started_at := d.started_at
          updated_at := d.updated_at
          elapsed_ms := d.elapsed_ms
          artifacts := d.artifacts
          errors := d.errors
          metadata := d.metadata }
  | none => .error ("Invalid phase name: " ++ d.phase)

/-- Modelled from the spec: the state of the sidecar checkpoint file inside a
working directory — absent, present but failing to parse/deserialize
(malformed or corrupted content), or successfully parsed into a record. -/
inductive Sidecar where
  | absent
  | corrupt
  | stored (cp : Checkpoint)
deriving Repr

namespace CheckpointManager

/-- Modelled from the spec: the manager's internal artifact scan — appends
filesystem-discovered files not already recorded, keying research markdown
files under "research", recognized test files under "tests", and JSON result
files under "execution" (the phase that produces them). -/
def scan_artifacts (d : WorkingDir) (cp : Checkpoint) : Checkpoint :=
  let cp1 := (d.research.filter isMarkdown).foldl
    (fun c f => c.add_artifact "research" f) cp
  let cp2 := (d.tests.filter isTestFile).foldl
    (fun c f => c.add_artifact "tests" f) cp1
  (d.results.filter isResultsFile).foldl
    (fun c f => c.add_artifact "execution" f) cp2

/-- Modelled from the spec: `load(working_dir, item_id)` — use the sidecar
record when it exists and parses, otherwise (absent or corrupt) a fresh INIT
record for `item_id` stamped with the current time `now`; then merge scanned
artifacts and adopt the phase derived by `from_artifacts` only when it is
strictly more advanced than the record's current phase. -/
def load (sc : Sidecar) (d : WorkingDir) (item_id now : String) : Checkpoint :=
  let cp := match sc with
    | .stored cp => cp
    | _ => Checkpoint.fresh item_id now
  let cp := scan_artifacts d cp
  let derived := Phase.from_artifacts d
  if cp.phase.toNat < derived.toNat then { cp with phase := derived } else cp

/-- Modelled from the spec: `can_resume(working_dir, item_id)` — load via the
same reconciliation and report whether the derived phase is strictly between
INIT and COMPLETE, exclusive on both ends. -/
def can_resume (sc : Sidecar) (d : WorkingDir) (item_id now : String) : Bool :=
  let cp := load sc d item_id now
  Phase.init.toNat < cp.phase.toNat && cp.phase.toNat < Phase.complete.toNat

end CheckpointManager

/-! ### Helper lemmas -/

theorem add_artifact_phase (cp : Checkpoint) (k f : String) :
    (cp.add_artifact k f).phase = cp.phase := rfl

theorem add_artifact_item_id (cp : Checkpoint) (k f : String) :
    (cp.add_artifact k f).item_id = cp.item_id := rfl

theorem foldadd_phase (key : String) (l : List String) (cp : Checkpoint) :
    (l.foldl (fun c f => c.add_artifact key f) cp).phase = cp.phase := by
  induction l generalizing cp with
  | nil => rfl
  | cons f rest ih => rw [List.foldl_cons, ih, add_artifact_phase]

theorem foldadd_item_id (key : String) (l : List String) (cp : Checkpoint) :
    (l.foldl (fun c f => c.add_artifact key f) cp).item_id = cp.item_id := by
  induction l generalizing cp with
  | nil => rfl
  | cons f rest ih => rw [List.foldl_cons, ih, add_artifact_item_id]

theorem scan_artifacts_phase (d : WorkingDir) (cp : Checkpoint) :
    (CheckpointManager.scan_artifacts d cp).phase = cp.phase := by
  unfold CheckpointManager.scan_artifacts
  rw [foldadd_phase, foldadd_phase, foldadd_phase]

theorem scan_artifacts_item_id (d : WorkingDir) (cp : Checkpoint) :
    (CheckpointManager.scan_artifacts d cp).item_id = cp.item_id := by
  unfold CheckpointManager.scan_artifacts
  rw [foldadd_item_id, foldadd_item_id, foldadd_item_id]

/-! ### Claim theorems -/

/-- C1: the record returned by `load` has a phase never less advanced than the
phase recorded in a successfully parsed sidecar record: load adopts the phase
derived by `from_artifacts` only when strictly more advanced than the record's
current phase and otherwise keeps the recorded phase, so the phase never
regresses. -/
theorem load_never_regresses (cp : Checkpoint) (d : WorkingDir) (i now : String) :
    cp.phase.toNat ≤ (CheckpointManager.load (Sidecar.stored cp) d i now).phase.toNat ∧
    (CheckpointManager.load (Sidecar.stored cp) d i now).phase
      = Phase.later cp.phase (Phase.from_artifacts d) := by
  unfold CheckpointManager.load Phase.later
  by_cases h : cp.phase.toNat < (Phase.from_artifacts d).toNat
  · simp only [scan_artifacts_phase, h, if_true]
    exact ⟨Nat.le_of_lt h, trivial⟩
  · simp only [scan_artifacts_phase, h, if_false]
    exact ⟨Nat.le_refl _, trivial⟩

/-- C2: when the sidecar file exists but its content is malformed, `load` does
not fail: it yields the same record as an absent sidecar — a fresh INIT record
carrying the given item id, reconciled against the scanned artifacts (its
phase being exactly the artifact-derived phase, since INIT is the bottom of
the order). -/
theorem load_corrupt_recovers (d : WorkingDir) (i now : String) :
    (CheckpointManager.load Sidecar.corrupt d i now).item_id = i ∧
    (CheckpointManager.load Sidecar.corrupt d i now).phase = Phase.from_artifacts d ∧
    CheckpointManager.load Sidecar.corrupt d i now
      = CheckpointManager.load Sidecar.absent d i now := by
  refine ⟨?_, ?_, rfl⟩
  · unfold CheckpointManager.load
    by_cases h : (CheckpointManager.scan_artifacts d (Checkpoint.fresh i now)).phase.toNat
        < (Phase.from_artifacts d).toNat
    · simp only [h, if_true]
      exact scan_artifacts_item_id d _
    · simp only [h, if_false]
      exact scan_artifacts_item_id d _
  · unfold CheckpointManager.load
    have hs : (CheckpointManager.scan_artifacts d (Checkpoint.fresh i now)).phase
        = Phase.init := scan_artifacts_phase d _
    cases hp : Phase.from_artifacts d <;>
      simp [hs, hp, Phase.toNat]

theorem from_artifacts_eq_complete (d : WorkingDir) :
    Phase.from_artifacts d = Phase.complete ↔ reportEvidence d.finalReport = true := by
  cases h1 : reportEvidence d.finalReport <;>
  cases h2 : d.results.any isResultsFile <;>
  cases h3 : d.tests.any isTestFile <;>
  cases h4 : d.research.any isMarkdown <;>
    simp [Phase.from_artifacts, h1, h2, h3, h4]

/-- C3: `from_artifacts` returns COMPLETE if and only if the final-report file
exists with content length at least 100 bytes; a report under 100 bytes is not
evidence of completion, and with no other recognized evidence the derivation
falls through to INIT. -/
theorem from_artifacts_complete_iff_big_report (d : WorkingDir) :
    (Phase.from_artifacts d = Phase.complete ↔
      ∃ c, d.finalReport = some c ∧ 100 ≤ c.length) ∧
    (∀ c, d.finalReport = some c → c.length < 100 →
      d.results.any isResultsFile = false →
      d.tests.any isTestFile = false →
      d.research.any isMarkdown = false →
      Phase.from_artifacts d = Phase.init) := by
  constructor
  · rw [from_artifacts_eq_complete]
    cases hfr : d.finalReport <;> simp [reportEvidence]
  · intro c hc hlen h2 h3 h4
    have h1 : reportEvidence d.finalReport = false := by
      rw [hc]
      simp only [reportEvidence, decide_eq_false_iff_not, Nat.not_le]
      exact hlen
    simp [Phase.from_artifacts, h1, h2, h3, h4]

theorem from_artifacts_complete_iff_big_report_witness :
    Phase.from_artifacts ⟨some "Short", [], [], []⟩ = Phase.init ∧
    Phase.from_artifacts
      ⟨some "xxxxxxxxxxxxxxxxxxxxxxxxxxxxxxxxxxxxxxxxxxxxxxxxxxxxxxxxxxxxxxxxxxxxxxxxxxxxxxxxxxxxxxxxxxxxxxxxxxxxxxxxxxxxxxxxxxxx",
        [], [], []⟩ = Phase.complete := by
  constructor
  · exact (from_artifacts_complete_iff_big_report ⟨some "Short", [], [], []⟩).2
      "Short" rfl (by decide) rfl rfl rfl
  · exact (from_artifacts_complete_iff_big_report _).1.mpr
      ⟨"xxxxxxxxxxxxxxxxxxxxxxxxxxxxxxxxxxxxxxxxxxxxxxxxxxxxxxxxxxxxxxxxxxxxxxxxxxxxxxxxxxxxxxxxxxxxxxxxxxxxxxxxxxxxxxxxxxxx",
        rfl, by decide⟩

/-- C4: `from_artifacts` evaluates evidence in the strict priority order
COMPLETE, REPORT, EXECUTION, TESTS, INIT, returning the first phase whose
independent evidence rule matches; in particular a directory with both a
results JSON file and a recognized test file yields REPORT, and a directory
with both a qualifying final report and a populated results directory yields
COMPLETE. -/
theorem from_artifacts_priority_first_match :
    (∀ d : WorkingDir,
      Phase.from_artifacts d = (priorityOrder.find? (phaseEvidence d)).getD Phase.init) ∧
    Phase.from_artifacts ⟨none, [], ["test_x.py"], ["results.json"]⟩ = Phase.report ∧
    Phase.from_artifacts
      ⟨some "xxxxxxxxxxxxxxxxxxxxxxxxxxxxxxxxxxxxxxxxxxxxxxxxxxxxxxxxxxxxxxxxxxxxxxxxxxxxxxxxxxxxxxxxxxxxxxxxxxxxxxxxxxxxxxxxxxxx",
        [], [], ["results.json"]⟩ = Phase.complete := by
  refine ⟨?_, by decide, by decide⟩
  intro d
  cases h1 : reportEvidence d.finalReport <;>
  cases h2 : d.results.any isResultsFile <;>
  cases h3 : d.tests.any isTestFile <;>
  cases h4 : d.research.any isMarkdown <;>
    simp [Phase.from_artifacts, priorityOrder, phaseEvidence, List.find?, h1, h2, h3, h4]

set_option maxRecDepth 8000 in
/-- C5: `can_resume` is true exactly when the phase of the load-style
reconciled record is strictly between INIT and COMPLETE; concretely it is
false for an empty directory (INIT), false when a qualifying final report is
present (COMPLETE), and true when the only evidence is research artifacts. -/
theorem can_resume_iff_strictly_between (sc : Sidecar) (d : WorkingDir) (i now : String) :
    (CheckpointManager.can_resume sc d i now = true ↔
      Phase.init.toNat < (CheckpointManager.load sc d i now).phase.toNat ∧
      (CheckpointManager.load sc d i now).phase.toNat < Phase.complete.toNat) ∧
    CheckpointManager.can_resume .absent ⟨none, [], [], []⟩ "T1" "t0" = false ∧
    CheckpointManager.can_resume
      .absent
      ⟨some "xxxxxxxxxxxxxxxxxxxxxxxxxxxxxxxxxxxxxxxxxxxxxxxxxxxxxxxxxxxxxxxxxxxxxxxxxxxxxxxxxxxxxxxxxxxxxxxxxxxxxxxxxxxxxxxxxxxx",
        [], [], []⟩ "T1" "t0" = false ∧
    CheckpointManager.can_resume .absent ⟨none, ["notes.md"], [], []⟩ "T1" "t0" = true := by
  refine ⟨?_, by decide, by decide, by decide⟩
  simp [CheckpointManager.can_resume, Bool.and_eq_true, decide_eq_true_iff]

/-- C6: serializing a checkpoint record and deserializing the result
reproduces the record exactly — identical item id, phase, attempt, elapsed
time, artifacts, errors and metadata — with `phase` carried in the serialized
form as its canonical lowercase name string. -/
theorem to_dict_from_dict_roundtrip (cp : Checkpoint) :
    Checkpoint.from_dict cp.to_dict = Except.ok cp ∧
    cp.to_dict.phase = cp.phase.name := by
  obtain ⟨id, ph, a, s, u, e, ar, er, m⟩ := cp
  exact ⟨by cases ph <;> rfl, rfl⟩

/-- C7: deserializing a mapping whose phase field is not one of the canonical
lowercase phase names is a hard failure: `from_dict` yields an error and never
a record. -/
theorem from_dict_invalid_phase (d : CheckpointDict)
    (h : Phase.ofName d.phase = none) :
    ∃ e, Checkpoint.from_dict d = Except.error e := by
  unfold Checkpoint.from_dict
  rw [h]
  exact ⟨_, rfl⟩

theorem from_dict_invalid_phase_witness :
    ∃ e, Checkpoint.from_dict ⟨"TEST-001", "invalid_phase", 1, "t", "t", 0, [], [], []⟩
        = Except.error e :=
  from_dict_invalid_phase ⟨"TEST-001", "invalid_phase", 1, "t", "t", 0, [], [], []⟩ rfl

/-- C8: `advance_phase` moves a non-terminal record's phase to the unique
immediately following phase of the fixed order (refreshing `updated_at`) and
reports `true`; on a COMPLETE record it reports `false` and leaves the whole
record, timestamp included, unchanged. -/
theorem advance_phase_moves_to_successor :
    (∀ p q : Phase, Phase.next_phase p = some q → q.toNat = p.toNat + 1) ∧
    (∀ p : Phase, Phase.next_phase p = none ↔ p = Phase.complete) ∧
    (∀ (cp : Checkpoint) (now : String) (q : Phase),
      Phase.next_phase cp.phase = some q →
      cp.advance_phase now = (true, { cp with phase := q, updated_at := now })) ∧
    (∀ (cp : Checkpoint) (now : String),
      cp.phase = Phase.complete → cp.advance_phase now = (false, cp)) := by
  refine ⟨?_, ?_, ?_, ?_⟩
  · intro p q h
    cases p <;> cases q <;> simp_all [Phase.next_phase, Phase.toNat]
  · intro p
    cases p <;> simp [Phase.next_phase]
  · intro cp now q h
    simp [Checkpoint.advance_phase, h]
  · intro cp now h
    simp [Checkpoint.advance_phase, h, Phase.next_phase]

theorem advance_phase_moves_to_successor_witness :
    Phase.research.toNat = Phase.init.toNat + 1 ∧
    (Checkpoint.fresh "TEST-001" "t0").advance_phase "t1"
      = (true, { Checkpoint.fresh "TEST-001" "t0" with
                  phase := Phase.research, updated_at := "t1" }) ∧
    ({ Checkpoint.fresh "TEST-001" "t0" with phase := Phase.complete }).advance_phase "t1"
      = (false, { Checkpoint.fresh "TEST-001" "t0" with phase := Phase.complete }) :=
  ⟨advance_phase_moves_to_successor.1 Phase.init Phase.research rfl,
   advance_phase_moves_to_successor.2.2.1 _ "t1" Phase.research rfl,
   advance_phase_moves_to_successor.2.2.2 _ "t1" rfl⟩

theorem lookupArtifacts_updateAssoc_self (m : List (String × List String)) (k v : String) :
    lookupArtifacts (updateAssoc m k v) k =
      (if v ∈ lookupArtifacts m k then lookupArtifacts m k
       else lookupArtifacts m k ++ [v]) := by
  induction m with
  | nil => simp [updateAssoc, lookupArtifacts]
  | cons kv rest ih =>
    obtain ⟨k0, vs⟩ := kv
    by_cases hk : k0 = k
    · subst hk
      by_cases hv : v ∈ vs <;> simp [updateAssoc, lookupArtifacts, hv]
    · simp [updateAssoc, lookupArtifacts, hk, ih]

theorem updateAssoc_idem (m : List (String × List String)) (k v : String) :
    updateAssoc (updateAssoc m k v) k v = updateAssoc m k v := by
  induction m with
  | nil => simp [updateAssoc]
  | cons kv rest ih =>
    obtain ⟨k0, vs⟩ := kv
    by_cases hk : k0 = k
    · subst hk
      by_cases hv : v ∈ vs <;> simp [updateAssoc, hv]
    · simp [updateAssoc, hk, ih]

/-- C9: `add_artifact` is idempotent per (phase name, path) pair — re-adding
the same path changes nothing, the list for the phase holds exactly one entry
for the path (created on first use), and a path not yet present is appended
at the end, preserving insertion order. -/
theorem add_artifact_idempotent (cp : Checkpoint) (ph p : String) :
    (cp.add_artifact ph p).add_artifact ph p = cp.add_artifact ph p ∧
    (cp.add_artifact ph p).artifactsFor ph =
      (if p ∈ cp.artifactsFor ph then cp.artifactsFor ph
       else cp.artifactsFor ph ++ [p]) ∧
    ((cp.add_artifact ph p).artifactsFor ph).count p
      = max 1 ((cp.artifactsFor ph).count p) := by
  refine ⟨?_, ?_, ?_⟩
  · simp [Checkpoint.add_artifact, updateAssoc_idem]
  · exact lookupArtifacts_updateAssoc_self cp.artifacts ph p
  · have hself : (cp.add_artifact ph p).artifactsFor ph =
        (if p ∈ cp.artifactsFor ph then cp.artifactsFor ph
         else cp.artifactsFor ph ++ [p]) :=
      lookupArtifacts_updateAssoc_self cp.artifacts ph p
    by_cases hp : p ∈ cp.artifactsFor ph
    · rw [hself, if_pos hp]
      have h1 : 0 < (cp.artifactsFor ph).count p := List.count_pos_iff.mpr hp
      exact (Nat.max_eq_right h1).symm
    · rw [hself, if_neg hp]
      have h0 : (cp.artifactsFor ph).count p = 0 := List.count_eq_zero.mpr hp
      simp [List.count_append, h0]

theorem lookupArtifacts_updateAssoc_ne (m : List (String × List String)) (k v k' : String)
    (h : k ≠ k') :
    lookupArtifacts (updateAssoc m k v) k' = lookupArtifacts m k' := by
  induction m with
  | nil => simp [updateAssoc, lookupArtifacts, h]
  | cons kv rest ih =>
    obtain ⟨k0, vs⟩ := kv
    by_cases hk : k0 = k
    · subst hk
      by_cases hv : v ∈ vs <;> simp [updateAssoc, lookupArtifacts, hv, h]
    · by_cases hk' : k0 = k' <;>
        simp [updateAssoc, lookupArtifacts, hk, hk', ih, Ne.symm h]

theorem mem_keysOf_updateAssoc (k v s : String) :
    ∀ m : List (String × List String),
      s ∈ keysOf (updateAssoc m k v) → s ∈ keysOf m ∨ s = k := by
  intro m
  induction m with
  | nil =>
    intro h
    simp [updateAssoc, keysOf] at h
    exact Or.inr h
  | cons kv rest ih =>
    intro h
    obtain ⟨k0, vs⟩ := kv
    by_cases hk : k0 = k
    · subst hk
      have hkeys : keysOf (updateAssoc ((k0, vs) :: rest) k0 v) = k0 :: keysOf rest := by
        by_cases hv : v ∈ vs <;> simp [updateAssoc, keysOf, hv]
      rw [hkeys] at h
      exact Or.inl h
    · have hkeys : keysOf (updateAssoc ((k0, vs) :: rest) k v)
          = k0 :: keysOf (updateAssoc rest k v) := by
        simp [updateAssoc, keysOf, hk]
      rw [hkeys] at h
      rcases List.mem_cons.mp h with h' | h'
      · exact Or.inl (List.mem_cons.mpr (Or.inl h'))
      · rcases ih h' with h'' | h''
        · exact Or.inl (List.mem_cons.mpr (Or.inr h''))
        · exact Or.inr h''

theorem foldadd_artifactsFor_self (key : String) :
    ∀ (l : List String) (cp : Checkpoint), l.Nodup →
      (∀ f ∈ l, f ∉ cp.artifactsFor key) →
      (l.foldl (fun c f => c.add_artifact key f) cp).artifactsFor key
        = cp.artifactsFor key ++ l := by
  intro l
  induction l with
  | nil => intro cp _ _; simp
  | cons f rest ih =>
    intro cp hnd hdis
    have hnd' := List.nodup_cons.mp hnd
    have hf : f ∉ cp.artifactsFor key := hdis f (List.mem_cons_self f rest)
    have hstep : (cp.add_artifact key f).artifactsFor key
        = cp.artifactsFor key ++ [f] := by
      have h' : (cp.add_artifact key f).artifactsFor key =
          (if f ∈ cp.artifactsFor key then cp.artifactsFor key
           else cp.artifactsFor key ++ [f]) :=
        lookupArtifacts_updateAssoc_self cp.artifacts key f
      rw [h', if_neg hf]
    have hdis' : ∀ g ∈ rest, g ∉ (cp.add_artifact key f).artifactsFor key := by
      intro g hg
      rw [hstep]
      simp only [List.mem_append, List.mem_singleton]
      push_neg
      exact ⟨hdis g (List.mem_cons_of_mem f hg), fun h => hnd'.1 (h ▸ hg)⟩
    rw [List.foldl_cons, ih _ hnd'.2 hdis', hstep]
    simp

theorem foldadd_artifactsFor_ne (key k' : String) (h : key ≠ k') :
    ∀ (l : List String) (cp : Checkpoint),
      (l.foldl (fun c f => c.add_artifact key f) cp).artifactsFor k'
        = cp.artifactsFor k' := by
  intro l
  induction l with
  | nil => intro cp; rfl
  | cons f rest ih =>
    intro cp
    rw [List.foldl_cons, ih]
    exact lookupArtifacts_updateAssoc_ne cp.artifacts key f k' h

theorem mem_keysOf_foldadd (key s : String) :
    ∀ (l : List String) (cp : Checkpoint),
      s ∈ keysOf (l.foldl (fun c f => c.add_artifact key f) cp).artifacts →
      s ∈ keysOf cp.artifacts ∨ s = key := by
  intro l
  induction l with
  | nil => intro cp h; exact Or.inl h
  | cons f rest ih =>
    intro cp h
    rw [List.foldl_cons] at h
    rcases ih _ h with h' | h'
    · exact mem_keysOf_updateAssoc key f s cp.artifacts h'
    · exact Or.inr h'

/-- C10: the manager's artifact scan keys discovered files by producing phase,
not by subdirectory name — markdown files under `research/` land under the
"research" key, recognized test files under `tests/` under the "tests" key,
and JSON result files under `results/` under the "execution" key, and no
"results" key ever appears in the inventory. -/
theorem scan_artifacts_keys_by_phase (d : WorkingDir) (i now : String)
    (h1 : d.research.Nodup) (h2 : d.tests.Nodup) (h3 : d.results.Nodup) :
    (CheckpointManager.scan_artifacts d (Checkpoint.fresh i now)).artifactsFor "research"
      = d.research.filter isMarkdown ∧
    (CheckpointManager.scan_artifacts d (Checkpoint.fresh i now)).artifactsFor "tests"
      = d.tests.filter isTestFile ∧
    (CheckpointManager.scan_artifacts d (Checkpoint.fresh i now)).artifactsFor "execution"
      = d.results.filter isResultsFile ∧
    "results" ∉ keysOf (CheckpointManager.scan_artifacts d (Checkpoint.fresh i now)).artifacts := by
  have hempty : ∀ k, (Checkpoint.fresh i now).artifactsFor k = [] := fun _ => rfl
  refine ⟨?_, ?_, ?_, ?_⟩
  · simp only [CheckpointManager.scan_artifacts]
    rw [foldadd_artifactsFor_ne "execution" "research" (by decide),
      foldadd_artifactsFor_ne "tests" "research" (by decide),
      foldadd_artifactsFor_self "research" _ _ (h1.filter _)
        (by intro f hf; rw [hempty]; exact List.not_mem_nil f),
      hempty]
    rfl
  · simp only [CheckpointManager.scan_artifacts]
    rw [foldadd_artifactsFor_ne "execution" "tests" (by decide),
      foldadd_artifactsFor_self "tests" _ _ (h2.filter _)
        (by intro f hf
            rw [foldadd_artifactsFor_ne "research" "tests" (by decide), hempty]
            exact List.not_mem_nil f),
      foldadd_artifactsFor_ne "research" "tests" (by decide), hempty]
    rfl
  · simp only [CheckpointManager.scan_artifacts]
    rw [foldadd_artifactsFor_self "execution" _ _ (h3.filter _)
        (by intro f hf
            rw [foldadd_artifactsFor_ne "tests" "execution" (by decide),
              foldadd_artifactsFor_ne "research" "execution" (by decide), hempty]
            exact List.not_mem_nil f),
      foldadd_artifactsFor_ne "tests" "execution" (by decide),
      foldadd_artifactsFor_ne "research" "execution" (by decide), hempty]
    rfl
  · simp only [CheckpointManager.scan_artifacts]
    intro h
    rcases mem_keysOf_foldadd "execution" "results" _ _ h with h' | h'
    · rcases mem_keysOf_foldadd "tests" "results" _ _ h' with h'' | h''
      · rcases mem_keysOf_foldadd "research" "results" _ _ h'' with h3' | h3'
        · exact absurd h3' (List.not_mem_nil _)
        · exact absurd h3' (by decide)
      · exact absurd h'' (by decide)
    · exact absurd h' (by decide)

theorem scan_artifacts_keys_by_phase_witness :
    (CheckpointManager.scan_artifacts
        ⟨none, ["doc1.md", "doc2.md"], ["test_a.py", "b_test.js"],
          ["results.json", "output_results.json"]⟩
        (Checkpoint.fresh "TEST-001" "t0")).artifactsFor "research"
      = ["doc1.md", "doc2.md"] ∧
    (CheckpointManager.scan_artifacts
        ⟨none, ["doc1.md", "doc2.md"], ["test_a.py", "b_test.js"],
          ["results.json", "output_results.json"]⟩
        (Checkpoint.fresh "TEST-001" "t0")).artifactsFor "tests"
      = ["test_a.py", "b_test.js"] ∧
    (CheckpointManager.scan_artifacts
        ⟨none, ["doc1.md", "doc2.md"], ["test_a.py", "b_test.js"],
          ["results.json", "output_results.json"]⟩
        (Checkpoint.fresh "TEST-001" "t0")).artifactsFor "execution"
      = ["results.json", "output_results.json"] ∧
    "results" ∉ keysOf (CheckpointManager.scan_artifacts
        ⟨none, ["doc1.md", "doc2.md"], ["test_a.py", "b_test.js"],
          ["results.json", "output_results.json"]⟩
        (Checkpoint.fresh "TEST-001" "t0")).artifacts :=
  scan_artifacts_keys_by_phase
    ⟨none, ["doc1.md", "doc2.md"], ["test_a.py", "b_test.js"],
      ["results.json", "output_results.json"]⟩
    "TEST-001" "t0" (by decide) (by decide) (by decide)

end CheckpointSpec
